import Mathlib

/-!
Verification development for the citation-metadata extraction and
metadata-string assembly core of `scripts/utils/process_pdf.py`.

Strings are modelled as lists of characters (`Str`), and the Python string
primitives used by the source (`strip`, `strip(chars)`, `lstrip`,
`startswith`, `endswith`, `split(":", 1)`, `split("-")`, `splitlines`,
`split()`, `join`, `upper`, `in`) are defined below with Python's
semantics.  `upper` is modelled character-by-character (ASCII case
mapping), which agrees with Python on the ASCII inputs this program
manipulates.
-/

namespace TepExp

abbrev Str := List Char

/-- Characters treated as whitespace by Python's `str.strip()` (ASCII range). -/
def isPySpace (c : Char) : Bool :=
  c == ' ' || c == '\t' || c == '\n' || c == '\r' || c == Char.ofNat 11 || c == Char.ofNat 12

/-- Python `s.lstrip()` restricted to a character predicate. -/
def pyLStripWith (p : Char → Bool) (s : Str) : Str := s.dropWhile p

/-- Python `s.rstrip()` restricted to a character predicate. -/
def pyRStripWith (p : Char → Bool) (s : Str) : Str := (s.reverse.dropWhile p).reverse

/-- Python `s.strip()` restricted to a character predicate. -/
def pyStripWith (p : Char → Bool) (s : Str) : Str := pyRStripWith p (pyLStripWith p s)

/-- Python `s.strip()` (whitespace at both ends removed). -/
def pyStrip (s : Str) : Str := pyStripWith isPySpace s

/-- Python `s.rstrip()`. -/
def pyRStrip (s : Str) : Str := pyRStripWith isPySpace s

/-- Python `s.strip(c)`: remove every leading and trailing occurrence of `c`. -/
def pyStripChar (c : Char) (s : Str) : Str := pyStripWith (fun d => d == c) s

/-- The value-cleaning chain `value.strip().strip(DQUOTE).strip(QUOTE)` used by
`set_scalar` (line 41) and the author scan (lines 136-138). -/
def cleanValue (v : Str) : Str := pyStripChar '\'' (pyStripChar '"' (pyStrip v))

/-- Semantics of `set_scalar` for a raw value: the cleaned value when it is
non-empty, `none` (leave the record unchanged) otherwise (lines 40-43). -/
def scalarVal (v : Str) : Option Str :=
  let c := cleanValue v
  if c.isEmpty then none else some c

/-- Python `s.split(COLON, 1)[1]`: everything after the first colon
(empty when there is no colon; the callers only use it when one exists). -/
def afterColon (s : Str) : Str := (s.dropWhile (fun c => !(c == ':'))).drop 1

/-- Python `sep.join(xs)`. -/
def joinSep (sep : Str) (xs : List Str) : Str := (xs.intersperse sep).flatten

def wordsAux : Str → Str → List Str
  | [], cur => if cur.isEmpty then [] else [cur.reverse]
  | c :: rest, cur =>
    if isPySpace c then
      if cur.isEmpty then wordsAux rest [] else cur.reverse :: wordsAux rest []
    else wordsAux rest (c :: cur)

/-- Python `s.split()` (split on whitespace runs, no empty pieces). -/
def pyWords (s : Str) : List Str := wordsAux s []

/-- Python `SPACE.join(s.split())`: collapse internal whitespace runs (line 199). -/
def collapseWs (s : Str) : Str := joinSep ([' ']) (pyWords s)

/-- Python `s.split(c)` on a single separator character, keeping empty pieces. -/
def pySplitOn (c : Char) (s : Str) : List Str := s.splitOn c

/-- Line-boundary characters of Python `str.splitlines`. -/
def isLineBreakChar (c : Char) : Bool :=
  c == '\n' || c == '\r' || c == Char.ofNat 11 || c == Char.ofNat 12 ||
  c == Char.ofNat 28 || c == Char.ofNat 29 || c == Char.ofNat 30 ||
  c == Char.ofNat 133 || c == Char.ofNat 8232 || c == Char.ofNat 8233

def splitlinesAux : Str → Str → List Str
  | [], cur => [cur.reverse]
  | '\r' :: '\n' :: rest2, cur =>
    cur.reverse :: (if rest2.isEmpty then [] else splitlinesAux rest2 [])
  | c :: rest, cur =>
    if isLineBreakChar c then
      cur.reverse :: (if rest.isEmpty then [] else splitlinesAux rest [])
    else splitlinesAux rest (c :: cur)

/-- Python `s.splitlines()`. -/
def pySplitlines (s : Str) : List Str := if s.isEmpty then [] else splitlinesAux s []

/-- Python `s.upper()` (ASCII case mapping). -/
def pyUpper (s : Str) : Str := s.map Char.toUpper

/-- Python substring containment `needle in hay`. -/
def pyIn (needle : Str) : Str → Bool
  | [] => needle.isEmpty
  | c :: rest => needle.isPrefixOf (c :: rest) || pyIn needle rest

/-- Python truthiness of an optional string (`None` and the empty string are falsy). -/
def truthyO (o : Option Str) : Bool :=
  match o with
  | some s => !s.isEmpty
  | none => false

/-- Python `str(o or DEFAULT)` for an optional string `o`. -/
def getStr (o : Option Str) : Str := o.getD []

/-- Python `a or b` on strings (the empty string is falsy). -/
def pyOrS (a b : Str) : Str := if a.isEmpty then b else a

/-- The Citation Record built by `_parse_citation_cff`: the `data` dictionary
plus the separately accumulated keywords/author results (lines 38-156).
Absent dictionary keys are `none`. -/
structure CitationRecord where
  title : Option Str := none
  doi : Option Str := none
  date_released : Option Str := none
  version : Option Str := none
  url : Option Str := none
  repository_code : Option Str := none
  license : Option Str := none
  abstract : Option Str := none
  author : Option Str := none
  keywords : Option (List Str) := none
deriving DecidableEq, Repr

/-- The seven scalar keys recognised by the normal-mode dispatch (lines 91-124). -/
inductive SKey where
  | title
  | doi
  | dateReleased
  | version
  | url
  | repositoryCode
  | license
deriving DecidableEq, Repr

/-- The line prefixes of the recognised scalar keys. -/
def sPrefixOf : SKey → Str
  | SKey.title => ("title:").toList
  | SKey.doi => ("doi:").toList
  | SKey.dateReleased => ("date-released:").toList
  | SKey.version => ("version:").toList
  | SKey.url => ("url:").toList
  | SKey.repositoryCode => ("repository-code:").toList
  | SKey.license => ("license:").toList

def getS : SKey → CitationRecord → Option Str
  | SKey.title, r => r.title
  | SKey.doi, r => r.doi
  | SKey.dateReleased, r => r.date_released
  | SKey.version, r => r.version
  | SKey.url, r => r.url
  | SKey.repositoryCode, r => r.repository_code
  | SKey.license, r => r.license

def setS : SKey → CitationRecord → Str → CitationRecord
  | SKey.title, r, v => { r with title := some v }
  | SKey.doi, r, v => { r with doi := some v }
  | SKey.dateReleased, r, v => { r with date_released := some v }
  | SKey.version, r, v => { r with version := some v }
  | SKey.url, r, v => { r with url := some v }
  | SKey.repositoryCode, r, v => { r with repository_code := some v }
  | SKey.license, r, v => { r with license := some v }

/-- `set_scalar` (lines 40-43): clean the value; store it only when non-empty. -/
def setScalar (k : SKey) (r : CitationRecord) (v : Str) : CitationRecord :=
  match scalarVal v with
  | some x => setS k r x
  | none => r

/-- Parser mode: `in_abstract` / `in_keywords` flags of the loop (lines 47-49);
the code never sets both at once. -/
inductive PMode where
  | normal
  | abstract
  | keywords
deriving DecidableEq, Repr

/-- The mutable state of the `_parse_citation_cff` loop (lines 38-54). -/
structure PState where
  data : CitationRecord := {}
  absLines : List Str := []
  kws : List Str := []
  fam : Option Str := none
  giv : Option Str := none
  mode : PMode := PMode.normal
deriving DecidableEq, Repr

/-- One name-slot update of the author scan (lines 135-138): the slot is
filled from a `family-names:` / `given-names:` line only while it is still
unset. -/
def scanName (tag : Str) (cur : Option Str) (sKey : Str) : Option Str :=
  if tag.isPrefixOf sKey && cur.isNone then some (cleanValue (afterColon sKey)) else cur

/-- The author scan triggered by an `authors:` line (lines 128-141): walk the
following lines, stopping at `preferred-citation:` or at a non-indented line
containing a colon, recording the first `family-names:` / `given-names:`
values seen, and stopping early once both are non-empty. -/
def authorScan : List Str → Option Str → Option Str → Option Str × Option Str
  | [], fam, giv => (fam, giv)
  | l :: rest, fam, giv =>
    let s := pyStrip l
    let sKey := pyStrip (s.dropWhile (fun c => c == '-' || c == ' '))
    if (("preferred-citation:").toList).isPrefixOf s ||
        (!s.isEmpty && !(([' ']).isPrefixOf l) && s.contains ':') then
      (fam, giv)
    else
      let fam' := scanName (("family-names:").toList) fam sKey
      let giv' := scanName (("given-names:").toList) giv sKey
      if truthyO fam' && truthyO giv' then (fam', giv')
      else authorScan rest fam' giv'

/-- Abstract-capture terminator (line 59): not two-space indented, non-blank
after stripping, and containing a colon. -/
def absTerm (l : Str) : Bool :=
  !((' ' :: [' ']).isPrefixOf l) && !(pyStrip l).isEmpty && l.contains ':'

/-- Commit the accumulated abstract lines (lines 60-62): join with newlines,
strip, reset the accumulator, and leave abstract-capture mode. -/
def commitAbs (st : PState) : PState :=
  { st with
    data := { st.data with abstract := some (pyStrip (joinSep (['\n']) st.absLines)) }
    absLines := []
    mode := PMode.normal }

/-- Drop one leading two-space indent when present (line 64). -/
def dedent (l : Str) : Str := if (' ' :: [' ']).isPrefixOf l then l.drop 2 else l

/-- Accumulate one abstract line (line 64). -/
def absAccum (l : Str) (st : PState) : PState :=
  { st with absLines := st.absLines ++ [dedent l] }

/-- Consume one keyword-mode line carrying a `-` marker (lines 70-75):
clean the remainder and append it when non-empty. -/
def addKw (l : Str) (st : PState) : PState :=
  let kw := cleanValue ((pyStrip l).drop 1)
  if kw.isEmpty then st else { st with kws := st.kws ++ [kw] }

/-- One normal-mode step of the loop (lines 79-145), consuming the line `l`;
`rest` is the list of lines after `l` (used by the author scan). -/
def normalStep (l : Str) (rest : List Str) (st : PState) : PState :=
  let s := pyStrip l
  if (("abstract:").toList).isPrefixOf s && ([('>' : Char)]).isSuffixOf s then
    { st with mode := PMode.abstract }
  else if (("keywords:").toList).isPrefixOf s then
    { st with mode := PMode.keywords }
  else if (sPrefixOf SKey.title).isPrefixOf s then
    { st with data := setScalar SKey.title st.data (afterColon s) }
  else if (sPrefixOf SKey.doi).isPrefixOf s then
    { st with data := setScalar SKey.doi st.data (afterColon s) }
  else if (sPrefixOf SKey.dateReleased).isPrefixOf s then
    { st with data := setScalar SKey.dateReleased st.data (afterColon s) }
  else if (sPrefixOf SKey.version).isPrefixOf s then
    { st with data := setScalar SKey.version st.data (afterColon s) }
  else if (sPrefixOf SKey.url).isPrefixOf s then
    { st with data := setScalar SKey.url st.data (afterColon s) }
  else if (sPrefixOf SKey.repositoryCode).isPrefixOf s then
    { st with data := setScalar SKey.repositoryCode st.data (afterColon s) }
  else if (sPrefixOf SKey.license).isPrefixOf s then
    { st with data := setScalar SKey.license st.data (afterColon s) }
  else if (("authors:").toList).isPrefixOf s then
    let p := authorScan rest st.fam st.giv
    { st with fam := p.1, giv := p.2 }
  else st

/-- The main loop of `_parse_citation_cff` (lines 55-145) as a structural
recursion over the remaining lines.  A line that terminates abstract- or
keyword-capture mode is re-examined under normal-mode rules without being
consumed (the `continue` statements at lines 63 and 77). -/
def processLines : List Str → PState → PState
  | [], st => st
  | l :: rest, st =>
    match st.mode with
    | PMode.abstract =>
      if absTerm l then processLines rest (normalStep l rest (commitAbs st))
      else processLines rest (absAccum l st)
    | PMode.keywords =>
      if ([('-' : Char)]).isPrefixOf (pyStrip l) then processLines rest (addKw l st)
      else processLines rest (normalStep l rest { st with mode := PMode.normal })
    | PMode.normal => processLines rest (normalStep l rest st)

/-- The post-loop commits of `_parse_citation_cff` (lines 147-154): a pending
abstract (only when at least one line was accumulated), the keyword list (only
when non-empty), and the author name joined given-then-family from the truthy
parts. -/
def finalize (st : PState) : CitationRecord :=
  let r := st.data
  let r := if st.mode = PMode.abstract ∧ st.absLines ≠ [] then
    { r with abstract := some (pyStrip (joinSep (['\n']) st.absLines)) } else r
  let r := if st.kws ≠ [] then { r with keywords := some st.kws } else r
  if truthyO st.fam || truthyO st.giv then
    { r with author := some (joinSep ([' '])
        ((([st.giv, st.fam]).filterMap id).filter (fun p => !p.isEmpty))) }
  else r

/-- `_parse_citation_cff` on an already split list of lines. -/
def parseCitationCffLines (ls : List Str) : CitationRecord :=
  finalize (processLines ls {})

/-- `_parse_citation_cff` (lines 31-156). -/
def parseCitationCff (t : Str) : CitationRecord :=
  parseCitationCffLines (pySplitlines t)

/-- The `while i < len(lines)` loop of `_parse_citation_cff` transcribed
directly, with the loop index `i` explicit and a fuel argument bounding the
number of iterations.  The `continue` statements that re-examine the current
line (lines 63 and 77) keep `i` unchanged, exactly as in the source. -/
def loopCff : Nat → List Str → Nat → PState → Option PState
  | 0, _, _, _ => none
  | fuel + 1, lines, i, st =>
    match lines.get? i with
    | none => some st
    | some l =>
      match st.mode with
      | PMode.abstract =>
        if absTerm l then loopCff fuel lines i (commitAbs st)
        else loopCff fuel lines (i + 1) (absAccum l st)
      | PMode.keywords =>
        if ([('-' : Char)]).isPrefixOf (pyStrip l) then loopCff fuel lines (i + 1) (addKw l st)
        else loopCff fuel lines i { st with mode := PMode.normal }
      | PMode.normal => loopCff fuel lines (i + 1) (normalStep l (lines.drop (i + 1)) st)

/-- The Version Descriptor (`VERSION.json` contents): optional `codename` and
`version` scalars (lines 160-177). -/
structure VersionDescriptor where
  codename : Option Str := none
  version : Option Str := none
deriving DecidableEq, Repr

/-- The Metadata Mapping: an insertion-ordered string-to-string dictionary. -/
abbrev Metadata := List (Str × Str)

/-- Dictionary lookup (`metadata.get(k)`). -/
def dictGet (k : Str) : Metadata → Option Str
  | [] => none
  | kv :: rest => if kv.1 = k then some kv.2 else dictGet k rest

/-- Dictionary update (`metadata[k] = v`): replace in place when the key
exists, append at the end otherwise (Python dict insertion order). -/
def dictSet : Metadata → Str → Str → Metadata
  | [], k, v => [(k, v)]
  | kv :: rest, k, v => if kv.1 = k then (kv.1, v) :: rest else kv :: dictSet rest k v

/-- The fixed CC BY 4.0 copyright literal (line 219). -/
def ccLiteral : Str :=
  ("Creative Commons Attribution 4.0 International License (CC BY 4.0)").toList

/-- The fixed Producer base label (line 208). -/
def baseProducer : Str := ("TEP-EXP Research Project").toList

/-- The `Subject` assembly of `_load_default_metadata` (lines 197-204). -/
def subjectOf (abstract doi repo : Str) : Str :=
  let parts :=
    (if !abstract.isEmpty then [collapseWs abstract] else []) ++
    (if !doi.isEmpty then [("DOI: ").toList ++ doi] else []) ++
    (if !repo.isEmpty then [("Code: ").toList ++ repo] else [])
  pyStrip (joinSep ([' ']) parts)

/-- The `CreationDate` computation (lines 189-195): requires a non-empty
`date_released` splitting on the dash into exactly three components. -/
def creationDateOf (date_released : Str) : Str :=
  if date_released.isEmpty then []
  else
    match pySplitOn '-' date_released with
    | [y, m, d] => y ++ [':'] ++ m ++ [':'] ++ d ++ (" 00:00:00").toList
    | _ => []

/-- `_load_default_metadata` (lines 159-230), starting from the already
parsed Citation Record and Version Descriptor (the file reading and JSON
decoding at lines 160-170 are external I/O outside this core). -/
def loadDefaultMetadata (cff : CitationRecord) (ver : VersionDescriptor) : Metadata :=
  let title := pyOrS (getStr cff.title) (("TEP-EXP").toList)
  let author := getStr cff.author
  let doi := getStr cff.doi
  let date_released := getStr cff.date_released
  let codename := getStr ver.codename
  let vnum := pyOrS (getStr ver.version) (getStr cff.version)
  let abstract := getStr cff.abstract
  let keywords_list := cff.keywords.getD []
  let keywords0 := joinSep (("; ").toList) keywords_list
  let keywords :=
    if !codename.isEmpty && !vnum.isEmpty then
      if !keywords0.isEmpty then keywords0 ++ ("; ").toList ++ codename ++ (" v").toList ++ vnum
      else codename ++ (" v").toList ++ vnum
    else keywords0
  let repo := pyOrS (getStr cff.repository_code) (getStr cff.url)
  let creation_date := creationDateOf date_released
  let subject := subjectOf abstract doi repo
  let license_str := pyOrS (getStr cff.license) (("CC-BY-4.0").toList)
  let producer :=
    if !codename.isEmpty && !vnum.isEmpty then
      baseProducer ++ (" (").toList ++ codename ++ (" v").toList ++ vnum ++ [')']
    else baseProducer
  let copyright :=
    if pyIn (("CC-BY").toList) (pyUpper license_str) then ccLiteral else license_str
  let base : Metadata :=
    [(("Title").toList, title),
     (("Author").toList, author),
     (("Creator").toList, author),
     (("Producer").toList, producer),
     (("Subject").toList, subject),
     (("Keywords").toList, keywords),
     (("Copyright").toList, copyright)]
  let base :=
    if !creation_date.isEmpty then
      base ++ [(("CreationDate").toList, creation_date), (("ModifyDate").toList, creation_date)]
    else base
  if !doi.isEmpty then base ++ [(("Identifier").toList, doi)] else base

/-- Command-line override values (`--title`, `--author`, `--doi`, `--url`);
`none` models an absent flag (lines 346-349). -/
structure Overrides where
  title : Option Str := none
  author : Option Str := none
  doi : Option Str := none
  url : Option Str := none
deriving DecidableEq, Repr

/-- Python truthiness used on each override (`if args.title:` and friends). -/
def ovVal (o : Option Str) : Option Str :=
  match o with
  | some s => if s.isEmpty then none else some s
  | none => none

/-- The `--title` override (lines 361-362). -/
def applyTitleOv (m : Metadata) (ov : Overrides) : Metadata :=
  match ovVal ov.title with
  | some t => dictSet m (("Title").toList) t
  | none => m

/-- The `--author` override (lines 363-365): sets Author and Creator. -/
def applyAuthorOv (m : Metadata) (ov : Overrides) : Metadata :=
  match ovVal ov.author with
  | some a => dictSet (dictSet m (("Author").toList) a) (("Creator").toList) a
  | none => m

/-- The `--doi` override (lines 366-371): sets Identifier and appends a
`DOI: <value>` segment to Subject. -/
def applyDoiOv (m : Metadata) (ov : Overrides) : Metadata :=
  match ovVal ov.doi with
  | some d =>
    let m := dictSet m (("Identifier").toList) d
    let subj := getStr (dictGet (("Subject").toList) m)
    if !subj.isEmpty then
      dictSet m (("Subject").toList) (pyStrip (subj ++ [' '] ++ ("DOI: ").toList ++ d))
    else dictSet m (("Subject").toList) (pyStrip (("DOI: ").toList ++ d))
  | none => m

/-- The `--url` override (lines 373-377): appends a `URL: <value>` segment
to Subject. -/
def applyUrlOv (m : Metadata) (ov : Overrides) : Metadata :=
  match ovVal ov.url with
  | some u =>
    let subj := getStr (dictGet (("Subject").toList) m)
    if !subj.isEmpty then
      dictSet m (("Subject").toList) (pyStrip (subj ++ [' '] ++ ("URL: ").toList ++ u))
    else dictSet m (("Subject").toList) (pyStrip (("URL: ").toList ++ u))
  | none => m

/-- The override application in `main` (lines 361-377), in source order. -/
def applyOverrides (m : Metadata) (ov : Overrides) : Metadata :=
  applyUrlOv (applyDoiOv (applyAuthorOv (applyTitleOv m ov) ov) ov) ov

/-- The value filtering of `embed_metadata` (lines 272-280): each field is
embedded with its stripped value, and fields whose value is empty after
stripping are skipped. -/
def embedArgsOf (m : Metadata) : Metadata :=
  m.filterMap (fun kv =>
    let v := pyStrip kv.2
    if v.isEmpty then none else some (kv.1, v))

/-- The metadata that actually reaches the embedding tool: defaults, then
overrides, then the empty-value filter of `embed_metadata`. -/
def finalMetadata (cff : CitationRecord) (ver : VersionDescriptor) (ov : Overrides) : Metadata :=
  embedArgsOf (applyOverrides (loadDefaultMetadata cff ver) ov)

/-- Number of occurrences of a pattern in a string (used to count the
`DOI: ` segments of a Subject value). -/
def countOcc (needle : Str) : Str → Nat
  | [] => 0
  | c :: rest => (if needle.isPrefixOf (c :: rest) then 1 else 0) + countOcc needle rest

/-- Modelled from the spec wording of claim C4 ("surrounding whitespace and a
single layer of matching quote characters stripped"), for comparison with the
source's `cleanValue`: strip whitespace, then remove one leading and one
trailing quote character only when they are present at both ends and agree. -/
def specSingleLayerClean (v : Str) : Str :=
  let s := pyStrip v
  if 2 ≤ s.length ∧ s.head? = s.getLast? ∧ (s.head? = some '"' ∨ s.head? = some '\'') then
    (s.drop 1).dropLast
  else s

/-- Fuel needed for one visit of a line: a line is examined at most twice
(once ending a capture mode, once again under normal rules). -/
def modeFuel : PMode → Nat
  | PMode.normal => 1
  | PMode.abstract => 2
  | PMode.keywords => 2

/-- The keyword contributed by one keyword-mode line (lines 71-73), when any. -/
def kwParse (l : Str) : Option Str := scalarVal ((pyStrip l).drop 1)

/-! ### General lemmas about the Python string primitives -/

lemma dropWhile_idem (p : Char → Bool) (l : Str) :
    (l.dropWhile p).dropWhile p = l.dropWhile p := by
  induction l with
  | nil => simp
  | cons a t ih => by_cases h : p a <;> simp [List.dropWhile_cons, h, ih]

lemma rstripWith_idem (p : Char → Bool) (s : Str) :
    pyRStripWith p (pyRStripWith p s) = pyRStripWith p s := by
  simp [pyRStripWith, dropWhile_idem]

lemma lstripWith_idem (p : Char → Bool) (s : Str) :
    pyLStripWith p (pyLStripWith p s) = pyLStripWith p s := by
  simp [pyLStripWith, dropWhile_idem]

lemma lstrip_rstrip_comm (p : Char → Bool) (s : Str) :
    pyLStripWith p (pyRStripWith p s) = pyRStripWith p (pyLStripWith p s) := by
  induction s with
  | nil => rfl
  | cons a t ih =>
    by_cases h : p a
    · cases he : List.dropWhile p t.reverse with
      | nil =>
        have hrt : pyRStripWith p t = [] := by simp [pyRStripWith, he]
        have hr : pyRStripWith p (a :: t) = [] := by
          simp [pyRStripWith, List.dropWhile_append, he, h]
        have hrhs : pyRStripWith p (pyLStripWith p (a :: t)) = pyLStripWith p (pyRStripWith p t) := by
          rw [show pyLStripWith p (a :: t) = pyLStripWith p t from by
            simp [pyLStripWith, List.dropWhile_cons, h], ← ih]
        rw [hr, hrhs, hrt]
      | cons b bs =>
        have hr : pyRStripWith p (a :: t) = a :: pyRStripWith p t := by
          simp [pyRStripWith, List.dropWhile_append, he, h]
        have hl : pyLStripWith p (a :: pyRStripWith p t) = pyLStripWith p (pyRStripWith p t) := by
          simp [pyLStripWith, List.dropWhile_cons, h]
        rw [hr, hl, ih, show pyLStripWith p (a :: t) = pyLStripWith p t from by
          simp [pyLStripWith, List.dropWhile_cons, h]]
    · have hlfix : pyLStripWith p (a :: t) = a :: t := by
        simp [pyLStripWith, List.dropWhile_cons, h]
      rw [hlfix]
      cases he : List.dropWhile p t.reverse with
      | nil =>
        have hr : pyRStripWith p (a :: t) = [a] := by
          simp [pyRStripWith, List.dropWhile_append, he, h]
        rw [hr]
        simp [pyLStripWith, List.dropWhile_cons, h]
      | cons b bs =>
        have hr : pyRStripWith p (a :: t) = a :: pyRStripWith p t := by
          simp [pyRStripWith, List.dropWhile_append, he, h]
        rw [hr]
        simp [pyLStripWith, List.dropWhile_cons, h]

lemma rstripWith_append (p : Char → Bool) (xs v : Str) (hfix : pyRStripWith p xs = xs) :
    pyRStripWith p (xs ++ v) = xs ++ pyRStripWith p v := by
  unfold pyRStripWith at *
  rw [List.reverse_append, List.dropWhile_append]
  split
  · next h =>
    have hv : List.dropWhile p v.reverse = [] := by
      simpa [List.isEmpty_iff] using h
    have hx : List.dropWhile p xs.reverse = xs.reverse := by
      have := congrArg List.reverse hfix
      simpa using this
    simp [hv, hx]
  · simp

lemma pyStrip_pyRStrip (s : Str) : pyStrip (pyRStrip s) = pyStrip s := by
  unfold pyStrip pyRStrip pyStripWith
  rw [lstrip_rstrip_comm, rstripWith_idem]

lemma pyStrip_idem (s : Str) : pyStrip (pyStrip s) = pyStrip s := by
  unfold pyStrip pyStripWith
  rw [lstrip_rstrip_comm, rstripWith_idem, lstripWith_idem]

lemma cleanValue_pyRStrip (v : Str) : cleanValue (pyRStrip v) = cleanValue v := by
  simp [cleanValue, pyStrip_pyRStrip]

lemma scalarVal_pyRStrip (v : Str) : scalarVal (pyRStrip v) = scalarVal v := by
  simp [scalarVal, cleanValue_pyRStrip]

lemma pyStrip_append_anchor (xs v : Str) (hne : xs ≠ [])
    (hl : pyLStripWith isPySpace xs = xs) (hr : pyRStripWith isPySpace xs = xs) :
    pyStrip (xs ++ v) = xs ++ pyRStrip v := by
  unfold pyStrip pyStripWith pyRStrip
  rw [show pyLStripWith isPySpace (xs ++ v) = xs ++ v from by
    unfold pyLStripWith at *
    rw [List.dropWhile_append, hl]
    simp [List.isEmpty_iff, hne]]
  exact rstripWith_append _ _ _ hr

/-! ### Lemmas about the metadata dictionary -/

lemma dictGet_dictSet_self (m : Metadata) (k v : Str) :
    dictGet k (dictSet m k v) = some v := by
  induction m with
  | nil => simp [dictGet, dictSet]
  | cons kv rest ih =>
    by_cases h : kv.1 = k <;> simp [dictGet, dictSet, h, ih]

lemma dictGet_dictSet_ne (m : Metadata) (k k' v : Str) (h : k' ≠ k) :
    dictGet k (dictSet m k' v) = dictGet k m := by
  induction m with
  | nil => simp [dictGet, dictSet, h]
  | cons kv rest ih =>
    by_cases h2 : kv.1 = k'
    · simp [dictGet, dictSet, h2, h]
    · by_cases h3 : kv.1 = k <;> simp [dictGet, dictSet, h2, h3, Ne.symm h, ih]

/-! ### Field-wise characterisation of `_load_default_metadata` -/

lemma load_subject (cff : CitationRecord) (ver : VersionDescriptor) :
    dictGet (("Subject").toList) (loadDefaultMetadata cff ver) =
      some (subjectOf (getStr cff.abstract) (getStr cff.doi)
        (pyOrS (getStr cff.repository_code) (getStr cff.url))) := by
  simp only [loadDefaultMetadata]
  split <;> split <;> simp [dictGet]

lemma load_copyright (cff : CitationRecord) (ver : VersionDescriptor) :
    dictGet (("Copyright").toList) (loadDefaultMetadata cff ver) =
      some (if pyIn (("CC-BY").toList) (pyUpper (pyOrS (getStr cff.license) (("CC-BY-4.0").toList)))
            then ccLiteral else pyOrS (getStr cff.license) (("CC-BY-4.0").toList)) := by
  simp only [loadDefaultMetadata]
  split <;> split <;> simp [dictGet]

lemma load_producer (cff : CitationRecord) (ver : VersionDescriptor) :
    dictGet (("Producer").toList) (loadDefaultMetadata cff ver) =
      some (if !(getStr ver.codename).isEmpty &&
              !(pyOrS (getStr ver.version) (getStr cff.version)).isEmpty then
              baseProducer ++ (" (").toList ++ getStr ver.codename ++ (" v").toList ++
                pyOrS (getStr ver.version) (getStr cff.version) ++ [')']
            else baseProducer) := by
  simp only [loadDefaultMetadata]
  split <;> split <;> simp [dictGet]

lemma load_keywords (cff : CitationRecord) (ver : VersionDescriptor) :
    dictGet (("Keywords").toList) (loadDefaultMetadata cff ver) =
      some (if !(getStr ver.codename).isEmpty &&
              !(pyOrS (getStr ver.version) (getStr cff.version)).isEmpty then
              if !(joinSep (("; ").toList) (cff.keywords.getD [])).isEmpty then
                joinSep (("; ").toList) (cff.keywords.getD []) ++ ("; ").toList ++
                  getStr ver.codename ++ (" v").toList ++
                  pyOrS (getStr ver.version) (getStr cff.version)
              else getStr ver.codename ++ (" v").toList ++
                pyOrS (getStr ver.version) (getStr cff.version)
            else joinSep (("; ").toList) (cff.keywords.getD [])) := by
  simp only [loadDefaultMetadata]
  split <;> split <;> simp [dictGet]

lemma load_creation (cff : CitationRecord) (ver : VersionDescriptor) :
    dictGet (("CreationDate").toList) (loadDefaultMetadata cff ver) =
      (if (creationDateOf (getStr cff.date_released)).isEmpty then none
       else some (creationDateOf (getStr cff.date_released))) := by
  simp only [loadDefaultMetadata]
  split <;> split <;> simp_all [dictGet]

lemma load_modify (cff : CitationRecord) (ver : VersionDescriptor) :
    dictGet (("ModifyDate").toList) (loadDefaultMetadata cff ver) =
      (if (creationDateOf (getStr cff.date_released)).isEmpty then none
       else some (creationDateOf (getStr cff.date_released))) := by
  simp only [loadDefaultMetadata]
  split <;> split <;> simp_all [dictGet]

lemma getStr_some (s : Str) : getStr (some s) = s := rfl

/-! ### Lemmas about the override pieces -/

lemma dictGet_applyTitleOv (m : Metadata) (ov : Overrides) (k : Str)
    (h : k ≠ ("Title").toList) : dictGet k (applyTitleOv m ov) = dictGet k m := by
  unfold applyTitleOv
  cases ovVal ov.title with
  | none => rfl
  | some t => exact dictGet_dictSet_ne m k _ t (fun he => h he.symm)

lemma dictGet_applyAuthorOv (m : Metadata) (ov : Overrides) (k : Str)
    (h1 : k ≠ ("Author").toList) (h2 : k ≠ ("Creator").toList) :
    dictGet k (applyAuthorOv m ov) = dictGet k m := by
  unfold applyAuthorOv
  cases ovVal ov.author with
  | none => rfl
  | some a =>
    rw [dictGet_dictSet_ne _ k _ a (fun he => h2 he.symm),
      dictGet_dictSet_ne m k _ a (fun he => h1 he.symm)]

/-! ### Lemmas about the parser loop -/

lemma pyStrip_sPrefixOf_append (k : SKey) (v : Str) :
    pyStrip (sPrefixOf k ++ v) = sPrefixOf k ++ pyRStrip v := by
  cases k <;> exact pyStrip_append_anchor _ _ (by decide) (by decide) (by decide)

lemma normalStep_scalar (k : SKey) (v : Str) (rest : List Str) (st : PState) :
    normalStep (sPrefixOf k ++ v) rest st =
      { st with data := setScalar k st.data (pyRStrip v) } := by
  have hs := pyStrip_sPrefixOf_append k v
  cases k <;>
    (simp only [normalStep]
     rw [hs]
     simp [sPrefixOf, List.isPrefixOf, afterColon, List.dropWhile])

lemma setScalar_getS_self (k : SKey) (r : CitationRecord) (v : Str) :
    getS k (setScalar k r v) =
      (match scalarVal v with
        | some x => some x
        | none => getS k r) := by
  unfold setScalar
  cases scalarVal v <;> cases k <;> rfl

lemma processLines_scalar_fold (k : SKey) (vs : List Str) :
    ∀ st : PState, st.mode = PMode.normal →
    getS k ((processLines (vs.map (fun v => sPrefixOf k ++ v)) st).data) =
      vs.foldl (fun acc v => match scalarVal v with
        | some x => some x
        | none => acc) (getS k st.data) := by
  induction vs with
  | nil => intro st h; rfl
  | cons v vs ih =>
    intro st h
    simp only [List.map_cons, List.foldl_cons]
    rw [show processLines ((sPrefixOf k ++ v) :: vs.map (fun v => sPrefixOf k ++ v)) st =
        processLines (vs.map (fun v => sPrefixOf k ++ v))
          (normalStep (sPrefixOf k ++ v) (vs.map (fun v => sPrefixOf k ++ v)) st) from by
      simp [processLines, h]]
    rw [normalStep_scalar,
      ih { st with data := setScalar k st.data (pyRStrip v) } h,
      setScalar_getS_self, scalarVal_pyRStrip]

lemma getS_finalize (k : SKey) (st : PState) :
    getS k (finalize st) = getS k st.data := by
  unfold finalize
  cases k <;> (repeat' split) <;> rfl

/-! ### Claim C7 -/

/-- C7: the `Copyright` field of the assembled mapping is the fixed CC BY 4.0
literal exactly when the (defaulted) license string contains `CC-BY`
case-insensitively, the license string verbatim otherwise; an absent license
defaults to `CC-BY-4.0` and hence to the literal. -/
theorem C7_copyright_rule (cff : CitationRecord) (ver : VersionDescriptor) :
    dictGet (("Copyright").toList) (loadDefaultMetadata cff ver) =
      some (if pyIn (("CC-BY").toList)
                (pyUpper (pyOrS (getStr cff.license) (("CC-BY-4.0").toList)))
            then ccLiteral else pyOrS (getStr cff.license) (("CC-BY-4.0").toList)) ∧
    (cff.license = none →
      dictGet (("Copyright").toList) (loadDefaultMetadata cff ver) = some ccLiteral) := by
  refine ⟨load_copyright cff ver, fun hl => ?_⟩
  rw [load_copyright]
  simp only [hl, getStr, Option.getD]
  decide

/-- Witness for C7 at a record with no license. -/
theorem C7_copyright_rule_witness :
    dictGet (("Copyright").toList) (loadDefaultMetadata {} {}) = some ccLiteral :=
  (C7_copyright_rule {} {}).2 rfl

/-! ### Claim C3 -/

/-- C3 as stated is false: the version number falls back to the record's
`version` field (line 177), so with `codename` in the Version Descriptor and
`version` only in the Citation Record the suffix is still produced. -/
theorem C3_producer_counterexample :
    (({ codename := some (("X").toList) } : VersionDescriptor).version = none) ∧
    dictGet (("Producer").toList)
        (loadDefaultMetadata { version := some (("1.0").toList) }
          { codename := some (("X").toList) }) =
      some (("TEP-EXP Research Project (X v1.0)").toList) ∧
    dictGet (("Keywords").toList)
        (loadDefaultMetadata { version := some (("1.0").toList) }
          { codename := some (("X").toList) }) =
      some (("X v1.0").toList) := by
  refine ⟨rfl, ?_, ?_⟩ <;> decide

/-- C3 amended: the Producer suffix and the extra Keywords segment appear
exactly when the codename is present in the Version Descriptor and a version
number is available from the Version Descriptor or, as fallback, from the
record's `version` field; otherwise Producer is the bare base label and
Keywords is just the record's keyword list joined with `; `. -/
theorem C3_producer_keywords_amended (cff : CitationRecord) (ver : VersionDescriptor) :
    dictGet (("Producer").toList) (loadDefaultMetadata cff ver) =
      some (if !(getStr ver.codename).isEmpty &&
              !(pyOrS (getStr ver.version) (getStr cff.version)).isEmpty then
              baseProducer ++ (" (").toList ++ getStr ver.codename ++ (" v").toList ++
                pyOrS (getStr ver.version) (getStr cff.version) ++ [')']
            else baseProducer) ∧
    dictGet (("Keywords").toList) (loadDefaultMetadata cff ver) =
      some (if !(getStr ver.codename).isEmpty &&
              !(pyOrS (getStr ver.version) (getStr cff.version)).isEmpty then
              if !(joinSep (("; ").toList) (cff.keywords.getD [])).isEmpty then
                joinSep (("; ").toList) (cff.keywords.getD []) ++ ("; ").toList ++
                  getStr ver.codename ++ (" v").toList ++
                  pyOrS (getStr ver.version) (getStr cff.version)
              else getStr ver.codename ++ (" v").toList ++
                pyOrS (getStr ver.version) (getStr cff.version)
            else joinSep (("; ").toList) (cff.keywords.getD [])) :=
  ⟨load_producer cff ver, load_keywords cff ver⟩

/-! ### Claim C6 -/

/-- C6: `CreationDate` and `ModifyDate` are present exactly when the record's
`date_released` is non-empty and splits on the dash into exactly three
components, in which case both carry the same reformatted value; otherwise
both are absent. -/
theorem C6_dates_iff (cff : CitationRecord) (ver : VersionDescriptor) :
    ((¬ (getStr cff.date_released).isEmpty ∧
        (pySplitOn '-' (getStr cff.date_released)).length = 3) →
      ∃ y mo da, pySplitOn '-' (getStr cff.date_released) = [y, mo, da] ∧
        dictGet (("CreationDate").toList) (loadDefaultMetadata cff ver) =
          some (y ++ [':'] ++ mo ++ [':'] ++ da ++ (" 00:00:00").toList) ∧
        dictGet (("ModifyDate").toList) (loadDefaultMetadata cff ver) =
          some (y ++ [':'] ++ mo ++ [':'] ++ da ++ (" 00:00:00").toList)) ∧
    ((¬ ((¬ (getStr cff.date_released).isEmpty) ∧
        (pySplitOn '-' (getStr cff.date_released)).length = 3)) →
      dictGet (("CreationDate").toList) (loadDefaultMetadata cff ver) = none ∧
      dictGet (("ModifyDate").toList) (loadDefaultMetadata cff ver) = none) := by
  constructor
  · rintro ⟨hne, hlen⟩
    obtain ⟨y, mo, da, hparts⟩ := List.length_eq_three.mp hlen
    have hne' : (getStr cff.date_released).isEmpty = false := by
      simpa using hne
    have hcd : creationDateOf (getStr cff.date_released) =
        y ++ [':'] ++ mo ++ [':'] ++ da ++ (" 00:00:00").toList := by
      simp [creationDateOf, hne', hparts]
    have hcdne : (creationDateOf (getStr cff.date_released)).isEmpty = false := by
      rw [hcd]
      cases y <;> rfl
    exact ⟨y, mo, da, hparts, by rw [load_creation]; simp [hcdne, hcd],
      by rw [load_modify]; simp [hcdne, hcd]⟩
  · intro h
    have hcd : (creationDateOf (getStr cff.date_released)).isEmpty = true := by
      by_cases hd : (getStr cff.date_released).isEmpty
      · simp [creationDateOf, hd]
      · have hd' : (getStr cff.date_released).isEmpty = false := by simpa using hd
        have hlen : (pySplitOn '-' (getStr cff.date_released)).length ≠ 3 := by
          intro hc
          exact h ⟨by simp [hd'], hc⟩
        simp only [creationDateOf, hd', Bool.false_eq_true, if_false]
        cases hp : pySplitOn '-' (getStr cff.date_released) with
        | nil => rfl
        | cons a l1 =>
          cases l1 with
          | nil => rfl
          | cons b l2 =>
            cases l2 with
            | nil => rfl
            | cons c l3 =>
              cases l3 with
              | nil => exact absurd (by rw [hp]; rfl) hlen
              | cons e l4 => rfl
    constructor
    · rw [load_creation]; simp [hcd]
    · rw [load_modify]; simp [hcd]

/-- Witness for C6: a full date yields both fields, a two-component date
yields neither. -/
theorem C6_dates_iff_witness :
    (∃ y mo da,
      pySplitOn '-' (getStr ({ date_released := some (("2024-03-15").toList) } :
          CitationRecord).date_released) = [y, mo, da] ∧
      dictGet (("CreationDate").toList)
          (loadDefaultMetadata { date_released := some (("2024-03-15").toList) } {}) =
        some (y ++ [':'] ++ mo ++ [':'] ++ da ++ (" 00:00:00").toList) ∧
      dictGet (("ModifyDate").toList)
          (loadDefaultMetadata { date_released := some (("2024-03-15").toList) } {}) =
        some (y ++ [':'] ++ mo ++ [':'] ++ da ++ (" 00:00:00").toList)) ∧
    (dictGet (("CreationDate").toList)
        (loadDefaultMetadata { date_released := some (("2024-03").toList) } {}) = none ∧
      dictGet (("ModifyDate").toList)
        (loadDefaultMetadata { date_released := some (("2024-03").toList) } {}) = none) :=
  ⟨(C6_dates_iff { date_released := some (("2024-03-15").toList) } {}).1
      ⟨by decide, by decide⟩,
    (C6_dates_iff { date_released := some (("2024-03").toList) } {}).2 (by decide)⟩

/-! ### Claim C1 -/

/-- C1 as stated is false: a DOI override is appended to Subject (lines
366-371), it does not replace the record-derived `DOI:` segment, so the
Subject ends up with two `DOI:` segments while Identifier carries the
override. -/
theorem C1_doi_override_counterexample :
    dictGet (("Identifier").toList)
        (applyOverrides (loadDefaultMetadata { doi := some (("10.1/x").toList) } {})
          { doi := some (("10.2/y").toList) }) =
      some (("10.2/y").toList) ∧
    dictGet (("Subject").toList)
        (applyOverrides (loadDefaultMetadata { doi := some (("10.1/x").toList) } {})
          { doi := some (("10.2/y").toList) }) =
      some (("DOI: 10.1/x DOI: 10.2/y").toList) ∧
    countOcc (("DOI: ").toList) (("DOI: 10.1/x DOI: 10.2/y").toList) = 2 := by
  refine ⟨?_, ?_, ?_⟩ <;> decide

/-- C1 amended: with a DOI override (and no URL override) the Identifier
field equals the override, and the Subject is the record-derived Subject with
one more `DOI: <override>` segment appended (stripped); when the record has a
DOI its own `DOI:` segment is retained in front of the appended one. -/
theorem C1_doi_override_amended (cff : CitationRecord) (ver : VersionDescriptor)
    (ov : Overrides) (d : Str) (hd : ovVal ov.doi = some d) (hu : ov.url = none) :
    dictGet (("Identifier").toList) (applyOverrides (loadDefaultMetadata cff ver) ov) =
      some d ∧
    dictGet (("Subject").toList) (applyOverrides (loadDefaultMetadata cff ver) ov) =
      some (if (subjectOf (getStr cff.abstract) (getStr cff.doi)
                  (pyOrS (getStr cff.repository_code) (getStr cff.url))).isEmpty then
              pyStrip ((("DOI: ").toList) ++ d)
            else
              pyStrip (subjectOf (getStr cff.abstract) (getStr cff.doi)
                  (pyOrS (getStr cff.repository_code) (getStr cff.url)) ++ [' '] ++
                (("DOI: ").toList) ++ d)) := by
  have hu' : ovVal ov.url = none := by simp [hu, ovVal]
  unfold applyOverrides
  rw [show applyUrlOv
      (applyDoiOv (applyAuthorOv (applyTitleOv (loadDefaultMetadata cff ver) ov) ov) ov) ov =
      applyDoiOv (applyAuthorOv (applyTitleOv (loadDefaultMetadata cff ver) ov) ov) ov from by
    unfold applyUrlOv
    rw [hu']]
  have hS1 : dictGet (("Subject").toList)
      (applyAuthorOv (applyTitleOv (loadDefaultMetadata cff ver) ov) ov) =
      some (subjectOf (getStr cff.abstract) (getStr cff.doi)
        (pyOrS (getStr cff.repository_code) (getStr cff.url))) := by
    rw [dictGet_applyAuthorOv _ _ _ (by decide) (by decide),
      dictGet_applyTitleOv _ _ _ (by decide), load_subject]
  unfold applyDoiOv
  rw [hd]
  simp only [dictGet_dictSet_ne _ _ _ _ (show (("Identifier").toList : Str) ≠
    ("Subject").toList by decide), hS1, getStr_some]
  by_cases hs : (subjectOf (getStr cff.abstract) (getStr cff.doi)
      (pyOrS (getStr cff.repository_code) (getStr cff.url))).isEmpty
  · rw [if_neg (show ¬ ((!(subjectOf (getStr cff.abstract) (getStr cff.doi)
        (pyOrS (getStr cff.repository_code) (getStr cff.url))).isEmpty) = true) from by
          simp [hs]),
      if_pos hs]
    exact ⟨by rw [dictGet_dictSet_ne _ _ _ _ (by decide), dictGet_dictSet_self],
      dictGet_dictSet_self _ _ _⟩
  · rw [if_pos (show (!(subjectOf (getStr cff.abstract) (getStr cff.doi)
        (pyOrS (getStr cff.repository_code) (getStr cff.url))).isEmpty) = true from by
          simp [hs]),
      if_neg hs]
    exact ⟨by rw [dictGet_dictSet_ne _ _ _ _ (by decide), dictGet_dictSet_self],
      dictGet_dictSet_self _ _ _⟩

/-- Witness for C1 amended at the counterexample's record and override. -/
theorem C1_doi_override_amended_witness :
    dictGet (("Identifier").toList)
        (applyOverrides (loadDefaultMetadata { doi := some (("10.1/x").toList) } {})
          { doi := some (("10.2/y").toList) }) =
      some (("10.2/y").toList) ∧
    dictGet (("Subject").toList)
        (applyOverrides (loadDefaultMetadata { doi := some (("10.1/x").toList) } {})
          { doi := some (("10.2/y").toList) }) =
      some (if (subjectOf (getStr (none : Option Str)) (getStr (some (("10.1/x").toList)))
                  (pyOrS (getStr (none : Option Str)) (getStr (none : Option Str)))).isEmpty then
              pyStrip ((("DOI: ").toList) ++ (("10.2/y").toList))
            else
              pyStrip (subjectOf (getStr (none : Option Str)) (getStr (some (("10.1/x").toList)))
                  (pyOrS (getStr (none : Option Str)) (getStr (none : Option Str))) ++ [' '] ++
                (("DOI: ").toList) ++ (("10.2/y").toList))) :=
  C1_doi_override_amended { doi := some (("10.1/x").toList) } {}
    { doi := some (("10.2/y").toList) } (("10.2/y").toList) rfl rfl

/-! ### Claim C2 -/

/-- C2: every key of the metadata mapping that reaches the embedding step
maps to a value that is non-empty after trimming (and already trimmed);
empty or whitespace-only fields are dropped by `embed_metadata`. -/
theorem C2_no_empty_values (cff : CitationRecord) (ver : VersionDescriptor)
    (ov : Overrides) (k v : Str) (hm : (k, v) ∈ finalMetadata cff ver ov) :
    ¬ v.isEmpty ∧ pyStrip v = v := by
  rw [finalMetadata, embedArgsOf] at hm
  rcases List.mem_filterMap.mp hm with ⟨kv, hkv, hf⟩
  by_cases h : (pyStrip kv.2).isEmpty
  · simp [h] at hf
  · simp only [h, Bool.false_eq_true, if_false, Option.some.injEq, Prod.mk.injEq] at hf
    rcases hf with ⟨hk, hv⟩
    rw [← hv]
    exact ⟨by simpa using h, pyStrip_idem kv.2⟩

/-- Witness for C2 at the default-input mapping's Title entry. -/
theorem C2_no_empty_values_witness :
    ¬ (("TEP-EXP").toList).isEmpty ∧
      pyStrip (("TEP-EXP").toList) = ("TEP-EXP").toList :=
  C2_no_empty_values {} {} {} (("Title").toList) (("TEP-EXP").toList) (by decide)

/-! ### Claim C4 -/

/-- C4 as stated is false on the quoting rule: Python's `strip(CHR(34))`
removes every leading and trailing quote character, not a single layer of
matching quotes, so `title: ""T""` stores `T` where the claim prescribes
`"T"`. -/
theorem C4_quote_layer_counterexample :
    (parseCitationCffLines [("title: \"\"T\"\"").toList]).title = some (("T").toList) ∧
    specSingleLayerClean ((" \"\"T\"\"").toList) = ("\"T\"").toList ∧
    ((("T").toList : Str) ≠ ("\"T\"").toList) := by
  refine ⟨?_, ?_, ?_⟩ <;> decide

/-- C4 amended: a recognised scalar line sets the field to the remainder of
the line stripped of surrounding whitespace and then of every leading and
trailing double-quote and single-quote character (Python `strip` semantics);
an occurrence whose stripped value is empty is discarded, leaving the field
as it was, and otherwise the last occurrence wins. -/
theorem C4_scalar_lines_amended (k : SKey) (vs : List Str) :
    getS k (parseCitationCffLines (vs.map (fun v => sPrefixOf k ++ v))) =
      vs.foldl (fun acc v => match scalarVal v with
        | some x => some x
        | none => acc) none := by
  unfold parseCitationCffLines
  rw [getS_finalize, processLines_scalar_fold k vs {} rfl]
  cases k <;> rfl

/-! ### Claim C5 -/

/-- C5 as stated is false at the empty-capture edge: the end-of-input commit
(line 147) requires at least one accumulated line, so a trailing
`abstract: >` header with nothing after it leaves the abstract field absent
even though end-of-input was reached while capturing. -/
theorem C5_eof_commit_counterexample :
    (processLines [("abstract: >").toList] {}).mode = PMode.abstract ∧
    (processLines [("abstract: >").toList] {}).absLines = [] ∧
    (parseCitationCffLines [("abstract: >").toList]).abstract = none := by
  refine ⟨?_, ?_, ?_⟩ <;> decide

/-- C5 amended: in abstract-capture mode each non-terminating line is
accumulated with one leading two-space indent stripped; a terminating line
(non-indented, non-blank, containing a colon) commits the joined and trimmed
accumulation and is re-examined without being consumed; at end-of-input the
accumulation is committed only when at least one line was accumulated,
otherwise the abstract field is left as it was. -/
theorem C5_abstract_capture :
    (∀ (ls rest : List Str) (st : PState), st.mode = PMode.abstract →
      (∀ l ∈ ls, absTerm l = false) →
      processLines (ls ++ rest) st =
        processLines rest { st with absLines := st.absLines ++ ls.map dedent }) ∧
    (∀ (l : Str) (rest : List Str) (st : PState), st.mode = PMode.abstract →
      absTerm l = true →
      processLines (l :: rest) st = processLines (l :: rest) (commitAbs st) ∧
      (commitAbs st).data.abstract = some (pyStrip (joinSep (['\n']) st.absLines)) ∧
      (commitAbs st).mode = PMode.normal) ∧
    (∀ st : PState, st.mode = PMode.abstract →
      (finalize st).abstract =
        if st.absLines.isEmpty then st.data.abstract
        else some (pyStrip (joinSep (['\n']) st.absLines))) := by
  refine ⟨?_, ?_, ?_⟩
  · intro ls
    induction ls with
    | nil =>
      intro rest st hm hall
      simp
    | cons l ls ih =>
      intro rest st hm hall
      have hl : absTerm l = false := hall l (by simp)
      rw [List.cons_append,
        show processLines (l :: (ls ++ rest)) st = processLines (ls ++ rest) (absAccum l st) from by
          simp [processLines, hm, hl],
        ih rest (absAccum l st) (by simp [absAccum, hm]) (fun x hx => hall x (by simp [hx]))]
      simp [absAccum]
  · intro l rest st hm ht
    refine ⟨?_, rfl, rfl⟩
    simp [processLines, hm, ht, commitAbs]
  · intro st hm
    by_cases ha : st.absLines = []
    · simp [finalize, hm, ha]
      (repeat' split) <;> rfl
    · have ha' : st.absLines.isEmpty = false := by
        simpa [List.isEmpty_iff] using ha
      simp [finalize, hm, ha, ha']
      (repeat' split) <;> rfl

/-- Witness for C5 at a two-line capture and a pending one-line accumulation. -/
theorem C5_abstract_capture_witness :
    (processLines [("  ab").toList] ({ mode := PMode.abstract } : PState)).absLines =
      [("ab").toList] ∧
    (finalize { mode := PMode.abstract, absLines := [("ab").toList] }).abstract =
      some (("ab").toList) := by
  constructor
  · have h := C5_abstract_capture.1 [("  ab").toList] [] { mode := PMode.abstract } rfl
      (by decide)
    simp only [List.append_nil] at h
    rw [h]
    decide
  · have h := C5_abstract_capture.2.2 { mode := PMode.abstract, absLines := [("ab").toList] }
      rfl
    rw [h]
    decide

/-! ### Claim C9 -/

lemma addKw_kwParse (l : Str) (st : PState) :
    addKw l st = { st with kws := st.kws ++ (kwParse l).toList } := by
  by_cases h : cleanValue (List.tail (pyStrip l)) = []
  · simp [addKw, kwParse, scalarVal, List.drop_one, h]
  · simp [addKw, kwParse, scalarVal, List.drop_one, h]

/-- C9 as stated is false at the empty-entry edge: a marker line whose
remainder strips to nothing contributes no keyword (the `if kw:` guard at
line 72), so `keywords:` followed by `-` and `- a` yields `[a]`, not
`["", a]`. -/
theorem C9_empty_entry_counterexample :
    (parseCitationCffLines
        [("keywords:").toList, ("-").toList, ("- a").toList]).keywords =
      some [("a").toList] ∧
    (([("a").toList] : List Str) ≠ [[], ("a").toList]) := by
  refine ⟨?_, ?_⟩ <;> decide

/-- C9 amended: in keyword-capture mode each marker line contributes its
cleaned remainder when that remainder is non-empty (empty remainders are
discarded), in source order; the first non-marker line leaves capture mode
and is re-examined under normal-mode rules; and the keywords key is present
in the record only when at least one keyword was collected. -/
theorem C9_keyword_capture :
    (∀ (ls rest : List Str) (st : PState), st.mode = PMode.keywords →
      (∀ l ∈ ls, ([('-' : Char)]).isPrefixOf (pyStrip l) = true) →
      processLines (ls ++ rest) st =
        processLines rest { st with kws := st.kws ++ ls.filterMap kwParse }) ∧
    (∀ (l : Str) (rest : List Str) (st : PState), st.mode = PMode.keywords →
      ([('-' : Char)]).isPrefixOf (pyStrip l) = false →
      processLines (l :: rest) st =
        processLines (l :: rest) { st with mode := PMode.normal }) ∧
    (∀ st : PState, (finalize st).keywords =
      if st.kws.isEmpty then st.data.keywords else some st.kws) := by
  refine ⟨?_, ?_, ?_⟩
  · intro ls
    induction ls with
    | nil =>
      intro rest st hm hall
      simp
    | cons l ls ih =>
      intro rest st hm hall
      have hl : ([('-' : Char)]).isPrefixOf (pyStrip l) = true := hall l (by simp)
      rw [List.cons_append,
        show processLines (l :: (ls ++ rest)) st = processLines (ls ++ rest) (addKw l st) from by
          simp [processLines, hm, hl],
        addKw_kwParse,
        ih rest { st with kws := st.kws ++ (kwParse l).toList } hm
          (fun x hx => hall x (by simp [hx]))]
      cases hkp : kwParse l <;> simp [hkp]
  · intro l rest st hm hnl
    simp [processLines, hm, hnl]
  · intro st
    by_cases hk : st.kws = []
    · simp [finalize, hk]
      (repeat' split) <;> rfl
    · have hk' : st.kws.isEmpty = false := by
        simpa [List.isEmpty_iff] using hk
      simp [finalize, hk, hk']
      (repeat' split) <;> rfl

/-- Witness for C9: a three-entry block plus an empty-marker line collects
exactly the three cleaned entries in order, and a non-empty collection is
committed into the record. -/
theorem C9_keyword_capture_witness :
    processLines ((["- a", "-", "- b", "- c"].map String.toList) ++ [])
        ({ mode := PMode.keywords } : PState) =
      processLines [] { mode := PMode.keywords, kws := ["a", "b", "c"].map String.toList } ∧
    (finalize { mode := PMode.keywords, kws := ["a", "b", "c"].map String.toList }).keywords =
      if ((["a", "b", "c"].map String.toList : List Str)).isEmpty then
        ({} : CitationRecord).keywords
      else some (["a", "b", "c"].map String.toList) :=
  ⟨C9_keyword_capture.1 (["- a", "-", "- b", "- c"].map String.toList) []
      { mode := PMode.keywords } rfl (by decide),
    C9_keyword_capture.2.2 { mode := PMode.keywords, kws := ["a", "b", "c"].map String.toList }⟩

/-! ### Claim C8 -/

lemma scanName_some (tag : Str) (x : Str) (sKey : Str) :
    scanName tag (some x) sKey = some x := by
  simp [scanName]

lemma authorScan_fam_some (rest : List Str) :
    ∀ (g : Option Str) (x : Str), (authorScan rest (some x) g).1 = some x := by
  induction rest with
  | nil => intro g x; simp [authorScan]
  | cons l rest ih =>
    intro g x
    simp only [authorScan, scanName_some]
    split
    · rfl
    · split
      · rfl
      · exact ih _ _

lemma authorScan_giv_some (rest : List Str) :
    ∀ (f : Option Str) (x : Str), (authorScan rest f (some x)).2 = some x := by
  induction rest with
  | nil => intro f x; simp [authorScan]
  | cons l rest ih =>
    intro f x
    simp only [authorScan, scanName_some]
    split
    · rfl
    · split
      · rfl
      · exact ih _ _

lemma setScalar_author (k : SKey) (r : CitationRecord) (v : Str) :
    (setScalar k r v).author = r.author := by
  unfold setScalar
  cases scalarVal v <;> cases k <;> rfl

lemma normalStep_fam_mono (l : Str) (rest : List Str) (st : PState) (x : Str)
    (h : st.fam = some x) : (normalStep l rest st).fam = some x := by
  simp [normalStep, h, authorScan_fam_some, apply_ite PState.fam]

lemma normalStep_giv_mono (l : Str) (rest : List Str) (st : PState) (x : Str)
    (h : st.giv = some x) : (normalStep l rest st).giv = some x := by
  simp [normalStep, h, authorScan_giv_some, apply_ite PState.giv]

lemma normalStep_no_authors (l : Str) (rest : List Str) (st : PState)
    (h : (("authors:").toList).isPrefixOf (pyStrip l) = false) :
    (normalStep l rest st).fam = st.fam ∧ (normalStep l rest st).giv = st.giv := by
  have h' : ¬ (((("authors:").toList) : Str) <+: pyStrip l) := by
    intro hc
    have hb := Iff.mpr List.isPrefixOf_iff_prefix hc
    rw [h] at hb
    exact Bool.noConfusion hb
  simp at h'
  constructor <;>
    simp [normalStep, h', apply_ite PState.fam, apply_ite PState.giv]

lemma normalStep_data_author (l : Str) (rest : List Str) (st : PState) :
    (normalStep l rest st).data.author = st.data.author := by
  simp only [normalStep]
  repeat' split
  all_goals simp [setScalar_author]

lemma processLines_data_author (ls : List Str) :
    ∀ st : PState, (processLines ls st).data.author = st.data.author := by
  induction ls with
  | nil => intro st; rfl
  | cons l rest ih =>
    intro st
    cases hm : st.mode
    case normal =>
      simp only [processLines, hm]
      rw [ih, normalStep_data_author]
    case abstract =>
      simp only [processLines, hm]
      split
      · rw [ih, normalStep_data_author]
        rfl
      · rw [ih]
        rfl
    case keywords =>
      simp only [processLines, hm]
      split
      · rw [ih, addKw_kwParse]
      · rw [ih, normalStep_data_author]

lemma processLines_no_authors (ls : List Str) :
    ∀ st : PState, (∀ l ∈ ls, (("authors:").toList).isPrefixOf (pyStrip l) = false) →
      (processLines ls st).fam = st.fam ∧ (processLines ls st).giv = st.giv := by
  induction ls with
  | nil => intro st _; exact ⟨rfl, rfl⟩
  | cons l rest ih =>
    intro st hall
    have hl := hall l (by simp)
    have hrest : ∀ x ∈ rest, (("authors:").toList).isPrefixOf (pyStrip x) = false :=
      fun x hx => hall x (by simp [hx])
    cases hm : st.mode
    case normal =>
      simp only [processLines, hm]
      obtain ⟨h1, h2⟩ := ih (normalStep l rest st) hrest
      obtain ⟨h3, h4⟩ := normalStep_no_authors l rest st hl
      exact ⟨h1.trans h3, h2.trans h4⟩
    case abstract =>
      simp only [processLines, hm]
      split
      · obtain ⟨h1, h2⟩ := ih (normalStep l rest (commitAbs st)) hrest
        obtain ⟨h3, h4⟩ := normalStep_no_authors l rest (commitAbs st) hl
        exact ⟨h1.trans h3, h2.trans h4⟩
      · obtain ⟨h1, h2⟩ := ih (absAccum l st) hrest
        exact ⟨h1, h2⟩
    case keywords =>
      simp only [processLines, hm]
      split
      · obtain ⟨h1, h2⟩ := ih (addKw l st) hrest
        rw [h1, h2, addKw_kwParse]
        exact ⟨rfl, rfl⟩
      · obtain ⟨h1, h2⟩ := ih (normalStep l rest { st with mode := PMode.normal }) hrest
        obtain ⟨h3, h4⟩ := normalStep_no_authors l rest { st with mode := PMode.normal } hl
        exact ⟨h1.trans h3, h2.trans h4⟩

lemma finalize_author (st : PState) :
    (finalize st).author =
      if truthyO st.fam || truthyO st.giv then
        some (joinSep ([' ']) ((([st.giv, st.fam]).filterMap id).filter (fun p => !p.isEmpty)))
      else st.data.author := by
  by_cases h : (truthyO st.fam || truthyO st.giv) = true
  · simp [finalize, h]
  · have h' : (truthyO st.fam || truthyO st.giv) = false := by simpa using h
    simp [finalize, h']
    all_goals (repeat' split) <;> rfl

/-- C8 as stated is false: the first-name slots persist across the scans
triggered by every `authors:` line, so a later `authors:` block can still
supply the missing given name: the record below yields author `B A`, not the
`A` prescribed by "the scan following the first authors: line". -/
theorem C8_cross_scan_counterexample :
    (parseCitationCffLines
        (["authors:", "  - family-names: A", "title: x", "authors:",
          "  - given-names: B"].map String.toList)).author =
      some (("B A").toList) ∧
    ((("B A").toList : Str) ≠ ("A").toList) := by
  refine ⟨?_, ?_⟩ <;> decide

/-- C8 amended: the author is built from the first `family-names:` and the
first `given-names:` values captured across all `authors:`-triggered scans (a
captured part is never overwritten, so at most one value per part, the first
in document order), joined given-then-family with absent or empty parts
omitted; and with no `authors:` line in the input the record has no author
key. -/
theorem C8_author_capture :
    (∀ ls : List Str, (∀ l ∈ ls, (("authors:").toList).isPrefixOf (pyStrip l) = false) →
      (parseCitationCffLines ls).author = none) ∧
    (∀ (ls : List Str) (st : PState) (x : Str), st.fam = some x →
      (processLines ls st).fam = some x) ∧
    (∀ (ls : List Str) (st : PState) (x : Str), st.giv = some x →
      (processLines ls st).giv = some x) ∧
    (∀ st : PState, (finalize st).author =
      if truthyO st.fam || truthyO st.giv then
        some (joinSep ([' ']) ((([st.giv, st.fam]).filterMap id).filter (fun p => !p.isEmpty)))
      else st.data.author) := by
  refine ⟨?_, ?_, ?_, fun st => finalize_author st⟩
  · intro ls hall
    obtain ⟨h1, h2⟩ := processLines_no_authors ls {} hall
    unfold parseCitationCffLines
    rw [finalize_author]
    simp [h1, h2, truthyO, processLines_data_author]
  · intro ls
    induction ls with
    | nil => intro st x h; exact h
    | cons l rest ih =>
      intro st x h
      cases hm : st.mode
      case normal =>
        simp only [processLines, hm]
        exact ih _ _ (normalStep_fam_mono l rest st x h)
      case abstract =>
        simp only [processLines, hm]
        split
        · exact ih _ _ (normalStep_fam_mono l rest (commitAbs st) x h)
        · exact ih _ _ h
      case keywords =>
        simp only [processLines, hm]
        split
        · exact ih _ _ (by rw [addKw_kwParse]; exact h)
        · exact ih _ _ (normalStep_fam_mono l rest { st with mode := PMode.normal } x h)
  · intro ls
    induction ls with
    | nil => intro st x h; exact h
    | cons l rest ih =>
      intro st x h
      cases hm : st.mode
      case normal =>
        simp only [processLines, hm]
        exact ih _ _ (normalStep_giv_mono l rest st x h)
      case abstract =>
        simp only [processLines, hm]
        split
        · exact ih _ _ (normalStep_giv_mono l rest (commitAbs st) x h)
        · exact ih _ _ h
      case keywords =>
        simp only [processLines, hm]
        split
        · exact ih _ _ (by rw [addKw_kwParse]; exact h)
        · exact ih _ _ (normalStep_giv_mono l rest { st with mode := PMode.normal } x h)

/-- Witness for C8: an authors-free input yields no author key, and a state
whose family slot is already taken keeps it through further lines. -/
theorem C8_author_capture_witness :
    (parseCitationCffLines (["title: x", "doi: 1"].map String.toList)).author = none ∧
    (processLines (["  - family-names: Z"].map String.toList)
        { fam := some (("A").toList) }).fam = some (("A").toList) :=
  ⟨C8_author_capture.1 (["title: x", "doi: 1"].map String.toList) (by decide),
    C8_author_capture.2.1 (["  - family-names: Z"].map String.toList)
      { fam := some (("A").toList) } (("A").toList) rfl⟩

/-! ### Claim C10 -/

lemma modeFuel_le_two (m : PMode) : modeFuel m ≤ 2 := by
  cases m <;> simp [modeFuel]

lemma modeFuel_pos (m : PMode) : 1 ≤ modeFuel m := by
  cases m <;> simp [modeFuel]

/-- The indexed while loop agrees with the structural recursion and finishes
within `2 * (number of remaining lines) + 2` iterations: each line is visited
at most twice (once to end a capture mode, once under normal rules). -/
lemma loopCff_eq_processLines (fuel : Nat) :
    ∀ (lines : List Str) (i : Nat) (st : PState),
      2 * (lines.length - i) + modeFuel st.mode ≤ fuel →
      loopCff fuel lines i st = some (processLines (lines.drop i) st) := by
  induction fuel with
  | zero =>
    intro lines i st h
    exfalso
    have := modeFuel_pos st.mode
    omega
  | succ f ih =>
    intro lines i st h
    cases hgi : lines.get? i with
    | none =>
      have hlen : lines.length ≤ i := by
        simpa using List.get?_eq_none.mp hgi
      rw [List.drop_eq_nil_of_le hlen]
      simp only [loopCff, hgi]
      rfl
    | some l =>
      have hi : i < lines.length := by
        by_contra hc
        rw [List.get?_eq_none.mpr (by omega)] at hgi
        exact Option.noConfusion hgi
      have hdrop : lines.drop i = l :: lines.drop (i + 1) := by
        rw [List.drop_eq_getElem_cons hi]
        have := List.get?_eq_some.mp hgi
        obtain ⟨h1, h2⟩ := this
        simp [← h2, List.get_eq_getElem]
      have hmf := modeFuel_le_two (normalStep l (lines.drop (i + 1)) st).mode
      cases hm : st.mode
      case normal =>
        rw [show loopCff (f + 1) lines i st =
            loopCff f lines (i + 1) (normalStep l (lines.drop (i + 1)) st) from by
          simp only [loopCff, hgi, hm]]
        rw [ih lines (i + 1) (normalStep l (lines.drop (i + 1)) st)
          (by
            have h1 : 2 * (lines.length - i) + 1 ≤ f + 1 := by
              rw [hm] at h
              simpa [modeFuel] using h
            have h2 := modeFuel_le_two (normalStep l (lines.drop (i + 1)) st).mode
            omega)]
        rw [hdrop]
        simp only [processLines, hm]
      case abstract =>
        have h1 : 2 * (lines.length - i) + 2 ≤ f + 1 := by
          rw [hm] at h
          simpa [modeFuel] using h
        by_cases ht : absTerm l = true
        · rw [show loopCff (f + 1) lines i st = loopCff f lines i (commitAbs st) from by
            simp only [loopCff, hgi, hm, ht, if_true]]
          rw [ih lines i (commitAbs st)
            (by
              show 2 * (lines.length - i) + modeFuel PMode.normal ≤ f
              simp only [modeFuel]
              omega)]
          rw [hdrop]
          simp only [processLines, hm, ht, if_true, commitAbs]
        · have ht' : absTerm l = false := by simpa using ht
          rw [show loopCff (f + 1) lines i st = loopCff f lines (i + 1) (absAccum l st) from by
            simp only [loopCff, hgi, hm, ht', Bool.false_eq_true, if_false]]
          rw [ih lines (i + 1) (absAccum l st)
            (by
              show 2 * (lines.length - (i + 1)) + modeFuel st.mode ≤ f
              rw [hm]
              simp only [modeFuel]
              omega)]
          rw [hdrop]
          simp only [processLines, hm, ht', Bool.false_eq_true, if_false, absAccum]
      case keywords =>
        have h1 : 2 * (lines.length - i) + 2 ≤ f + 1 := by
          rw [hm] at h
          simpa [modeFuel] using h
        by_cases ht : ([('-' : Char)]).isPrefixOf (pyStrip l) = true
        · rw [show loopCff (f + 1) lines i st = loopCff f lines (i + 1) (addKw l st) from by
            simp only [loopCff, hgi, hm, ht, if_true]]
          rw [ih lines (i + 1) (addKw l st)
            (by
              rw [addKw_kwParse]
              show 2 * (lines.length - (i + 1)) + modeFuel st.mode ≤ f
              rw [hm]
              simp only [modeFuel]
              omega)]
          rw [hdrop]
          simp only [processLines, hm, ht, if_true]
        · have ht' : ([('-' : Char)]).isPrefixOf (pyStrip l) = false := by
            rw [← Bool.not_eq_true]
            exact ht
          rw [show loopCff (f + 1) lines i st =
              loopCff f lines i { st with mode := PMode.normal } from by
            simp only [loopCff, hgi, hm, ht', Bool.false_eq_true, if_false]]
          rw [ih lines i { st with mode := PMode.normal }
            (by
              show 2 * (lines.length - i) + modeFuel PMode.normal ≤ f
              simp only [modeFuel]
              omega)]
          rw [hdrop]
          simp only [processLines, hm, ht', Bool.false_eq_true, if_false]

/-- C10: for every input text the extractor's while loop terminates (within
`2n + 2` iterations for `n` lines, never indexing out of bounds), agrees with
the structural recursion, and `_parse_citation_cff` returns the resulting
Citation Record; malformed content only ever leads to skipped or omitted
fields, never to failure. -/
theorem C10_total_extractor (t : Str) :
    loopCff (2 * (pySplitlines t).length + 2) (pySplitlines t) 0 {} =
      some (processLines (pySplitlines t) {}) ∧
    parseCitationCff t = finalize (processLines (pySplitlines t) {}) :=
  ⟨loopCff_eq_processLines (2 * (pySplitlines t).length + 2) (pySplitlines t) 0 {}
      (by simp only [modeFuel]; omega),
    rfl⟩

end TepExp

